import Mathlib

/-!
Verification of the whois42d query-dispatch and lookup engine.

The definitions below are a shallow embedding of `src/whois/query.go`
(package `whois`) and of the accept/shutdown lifecycle in `src/server.go`.
Strings are modelled as `List Char`; Go byte slices of IP addresses are
modelled as natural numbers below `2^32` (IPv4) or `2^128` (IPv6) together
with an address-family tag.
-/

set_option maxRecDepth 100000

namespace Whois

/-- Strings from the Go source are modelled as lists of characters. -/
abbrev Str := List Char

/-- Coerce a Lean string literal to the model's string type. -/
def str (s : String) : Str := s.data

/-- ASCII decimal digit test (Go regexp `\d`, Go `dtoi`). -/
def isDig (c : Char) : Bool := '0' ≤ c && c ≤ '9'

/-- ASCII hexadecimal digit test (Go `xtoi`). -/
def isHexDig (c : Char) : Bool :=
  ('0' ≤ c && c ≤ '9') || ('a' ≤ c && c ≤ 'f') || ('A' ≤ c && c ≤ 'F')

/-- Value of a decimal digit. -/
def digVal (c : Char) : Nat := c.toNat - '0'.toNat

/-- Value of a hexadecimal digit. -/
def hexDigVal (c : Char) : Nat :=
  if '0' ≤ c && c ≤ '9' then c.toNat - '0'.toNat
  else if 'a' ≤ c && c ≤ 'f' then c.toNat - 'a'.toNat + 10
  else c.toNat - 'A'.toNat + 10

/-- Decimal value of a digit string (Go `dtoi` on an all-digit string). -/
def decVal (s : Str) : Nat := s.foldl (fun n c => 10 * n + digVal c) 0

/-- Hexadecimal value of a hex-digit string (Go `xtoi`). -/
def hexVal (s : Str) : Nat := s.foldl (fun n c => 16 * n + hexDigVal c) 0

/-- Go `unicode.IsSpace` restricted to the characters that can occur on a
whois request line (ASCII whitespace). -/
def isSpace (c : Char) : Bool :=
  c = ' ' || c = '\t' || c = '\n' || c = '\r' || c = '\x0b' || c = '\x0c'

/-- Go `strings.TrimSpace`. -/
def trimSpace (s : Str) : Str :=
  ((s.dropWhile isSpace).reverse.dropWhile isSpace).reverse

/-- Helper for `splitOnChar`: returns the first segment and the remaining
segments of the split. -/
def splitAux (sep : Char) : Str → Str × List Str
  | [] => ([], [])
  | c :: cs =>
    let r := splitAux sep cs
    if c = sep then ([], r.1 :: r.2) else (c :: r.1, r.2)

/-- Go `strings.Split` with a one-character separator. -/
def splitOnChar (sep : Char) (s : Str) : List Str :=
  let r := splitAux sep s
  r.1 :: r.2

/-- Go `strings.Replace(s, old, new, -1)` for one-character patterns. -/
def replaceAll (a b : Char) (s : Str) : Str :=
  s.map (fun c => if c = a then b else c)

/-- List-prefix test, Go `strings.HasPrefix`. -/
def hasPrefix : Str → Str → Bool
  | _, [] => true
  | [], _ :: _ => false
  | c :: cs, p :: ps => c = p && hasPrefix cs ps

/-- List-suffix test, Go `strings.HasSuffix`. -/
def hasSuffix (s p : Str) : Bool := hasPrefix s.reverse p.reverse

/-- Substring test (used for unanchored regexp patterns). -/
def containsSeq (s pat : Str) : Bool :=
  match s with
  | [] => hasPrefix [] pat
  | _ :: cs => hasPrefix s pat || containsSeq cs pat

/-- ASCII uppercase conversion, Go `strings.ToUpper` on ASCII input. -/
def toUpperStr (s : Str) : Str := s.map Char.toUpper

/-- ASCII lowercase conversion, Go `strings.ToLower` on ASCII input. -/
def toLowerStr (s : Str) : Str := s.map Char.toLower

/-- Go `path.Base`: strip trailing slashes, then keep everything after the
last slash; empty input gives `"."`, all-slash input gives `"/"`. -/
def pathBase (p : Str) : Str :=
  if p = [] then ['.']
  else
    let q := (p.reverse.dropWhile (· = '/')).takeWhile (· ≠ '/')
    if q = [] then ['/'] else q.reverse

/-- Decimal rendering of a natural number (Go `strconv`/`fmt` `%d`). -/
def natToDec (n : Nat) : Str :=
  (Nat.toDigits 10 n)

/-- Lowercase hexadecimal rendering of a natural number (Go `%x`,
`net.IP.String` group formatting). -/
def natToHex (n : Nat) : Str :=
  (Nat.toDigits 16 n)

/-!
## The type catalog (`whoisTypes` in `src/whois/query.go:41-57`)

Each regular expression of the catalog is embedded as a boolean matcher
with exactly the semantics of Go `regexp.MatchString` on that pattern
(unanchored search; `.` matches any character except newline; `\d` is
an ASCII digit).
-/

/-- Go regexp `^AS([0123456789]+)$` (type `aut-num`). -/
def reAutNum (s : Str) : Bool :=
  hasPrefix s (str "AS") && decide (s.drop 2 ≠ []) && (s.drop 2).all isDig

/-- Go regexp `.dn42$` (type `dns`): the string ends in `dn42` preceded by
at least one character, which must not be a newline. -/
def reDns (s : Str) : Bool :=
  match s.reverse with
  | '2' :: '4' :: 'n' :: 'd' :: c :: _ => c ≠ '\n'
  | _ => false

/-- Go regexp `-DN42$` (type `person`). -/
def rePerson (s : Str) : Bool := hasSuffix s (str "-DN42")

/-- Go regexp `-MNT$` (type `mntner`). -/
def reMntner (s : Str) : Bool := hasSuffix s (str "-MNT")

/-- Go regexp `-SCHEMA$` (type `schema`). -/
def reSchema (s : Str) : Bool := hasSuffix s (str "-SCHEMA")

/-- Go regexp `ORG-` (type `organisation`), an unanchored substring match. -/
def reOrg (s : Str) : Bool := containsSeq s (str "ORG-")

/-- Go regexp `^SET-.+-TINC$` (type `tinc-keyset`): prefix `SET-`, suffix
`-TINC`, and a nonempty middle containing no newline. -/
def reTincKeyset (s : Str) : Bool :=
  hasPrefix s (str "SET-") && hasSuffix s (str "-TINC") &&
    decide (10 ≤ s.length) && ((s.drop 4).take (s.length - 9)).all (· ≠ '\n')

/-- Go regexp `-TINC$` (type `tinc-key`). -/
def reTincKey (s : Str) : Bool := hasSuffix s (str "-TINC")

/-- Go regexp `^AS` (type `as-set`). -/
def reAsSet (s : Str) : Bool := hasPrefix s (str "AS")

/-- Go regexp `^RS-` (type `route-set`). -/
def reRouteSet (s : Str) : Bool := hasPrefix s (str "RS-")

/-- Go regexp `\d+_\d+` (type `as-block`): some digit, underscore, digit
occur consecutively somewhere in the string. -/
def reAsBlock : Str → Bool
  | a :: b :: c :: rest => (isDig a && b = '_' && isDig c) || reAsBlock (b :: c :: rest)
  | _ => false

/-- The match-kind constants `UPPER`, `LOWER`, `ROUTE`, `ROUTE6` of
`src/whois/query.go:29-34`, which in Go double as the keys of the
per-query object map. -/
inductive Kind
  | UPPER
  | LOWER
  | ROUTE
  | ROUTE6
deriving DecidableEq

/-- One entry of the type catalog (`Type` in `src/whois/query.go:21-25`).
For the two network kinds the Go catalog stores a nil pattern that is
never consulted (`handleObject` branches on the kind first); the embedding
stores the never-consulted constant-false matcher there. -/
structure WhoisType where
  name : Str
  pattern : Str → Bool
  kind : Kind

/-- The type catalog in declaration order (`whoisTypes`,
`src/whois/query.go:41-57`). -/
def whoisTypes : List WhoisType :=
  [ ⟨str "aut-num", reAutNum, .UPPER⟩
  , ⟨str "dns", reDns, .LOWER⟩
  , ⟨str "person", rePerson, .UPPER⟩
  , ⟨str "mntner", reMntner, .UPPER⟩
  , ⟨str "schema", reSchema, .UPPER⟩
  , ⟨str "organisation", reOrg, .UPPER⟩
  , ⟨str "tinc-keyset", reTincKeyset, .UPPER⟩
  , ⟨str "tinc-key", reTincKey, .UPPER⟩
  , ⟨str "as-set", reAsSet, .UPPER⟩
  , ⟨str "route-set", reRouteSet, .UPPER⟩
  , ⟨str "inetnum", fun _ => false, .ROUTE⟩
  , ⟨str "inet6num", fun _ => false, .ROUTE6⟩
  , ⟨str "route", fun _ => false, .ROUTE⟩
  , ⟨str "route6", fun _ => false, .ROUTE6⟩
  , ⟨str "as-block", reAsBlock, .UPPER⟩ ]

/-!
## IP addresses and networks (Go `net` package primitives)

`net.IP` values reaching the lookup engine are either a 4-byte IPv4
address (after `To4()`) or a 16-byte IPv6 address; they are modelled as a
family tag plus a natural number below `2^32` resp. `2^128`.  Following
`IP.To4`, a 16-byte value whose first twelve bytes are
`0,…,0,0xff,0xff` is canonicalised to the IPv4 family at the points where
the Go code applies `To4`/`networkNumberAndMask`.
-/

/-- Address family: a 4-byte or a 16-byte `net.IP`. -/
inductive Fam
  | v4
  | v6
deriving DecidableEq

/-- Number of bytes of an address of the family. -/
def famBytes : Fam → Nat
  | .v4 => 4
  | .v6 => 16

/-- Number of bits of an address of the family. -/
def famBits (f : Fam) : Nat := 8 * famBytes f

/-- An IP address as it flows through the lookup engine. -/
structure Ip where
  fam : Fam
  val : Nat
deriving DecidableEq

/-- A parsed CIDR network (`net.IPNet`): family of the stored byte slice,
the (masked) network address, and the prefix length of the stored mask. -/
structure IPNet where
  fam : Fam
  addr : Nat
  plen : Nat
deriving DecidableEq

/-- A nonempty all-digit field with value at most 255: exactly the strings
Go `parseIPv4` accepts as one dotted-quad octet (the `dtoi` overflow
cutoff is subsumed because partial values only grow). -/
def isDecOctet (f : Str) : Bool := decide (f ≠ []) && f.all isDig && decide (decVal f ≤ 255)

/-- Go `parseIPv4`: exactly four dot-separated decimal octets. -/
def parseIPv4 (s : Str) : Option Nat :=
  match splitOnChar '.' s with
  | [a, b, c, d] =>
    if isDecOctet a && isDecOctet b && isDecOctet c && isDecOctet d then
      some (((decVal a * 256 + decVal b) * 256 + decVal c) * 256 + decVal d)
    else none
  | _ => none

/-- A nonempty hex field with value at most `0xFFFF`: one 16-bit group of
Go `parseIPv6` (`xtoi` plus the `n > 0xFFFF` check). -/
def isHexGroup (f : Str) : Bool :=
  decide (f ≠ []) && f.all isHexDig && decide (hexVal f ≤ 0xFFFF)

/-- Parse a run of colon-separated fields into 16-bit group values; the
last field may instead be a dotted quad (contributing two groups) when
`v4last` is set — Go `parseIPv6` only accepts an embedded IPv4 part as
the final component of the address text. -/
def parseRun (v4last : Bool) : List Str → Option (List Nat)
  | [] => some []
  | [f] =>
    if isHexGroup f then some [hexVal f]
    else if v4last then
      match parseIPv4 f with
      | some n => some [n / 65536, n % 65536]
      | none => none
    else none
  | f :: g :: fs =>
    if isHexGroup f then (parseRun v4last (g :: fs)).map (hexVal f :: ·) else none

/-- Big-endian value of a list of 16-bit groups. -/
def groupsToNat (gs : List Nat) : Nat := gs.foldl (fun n g => 65536 * n + g) 0

/-- Value of a group list placed at the top of a 128-bit address
(the part left of a `::`). -/
def padShift (gs : List Nat) : Nat := groupsToNat gs * 65536 ^ (8 - gs.length)

/-- Go `parseIPv6` (zone-less form, as used by `ParseCIDR`; request
tokens carrying a `%zone` are not modelled).  The imperative Go loop is
rendered by its field decomposition: splitting on `:` and analysing where
the empty fields produced by a `::` sit.  Accepted shapes are exactly
eight hex groups (or six plus a trailing dotted quad), and the four `::`
forms with at most seven groups in total. -/
def parseIPv6 (s : Str) : Option Nat :=
  let fs := splitOnChar ':' s
  let L := fs.takeWhile (· ≠ [])
  let R := fs.dropWhile (· ≠ [])
  if R = [] then
    match parseRun true fs with
    | some gs => if gs.length = 8 then some (groupsToNat gs) else none
    | none => none
  else if L = [] then
    if fs = [[], [], []] then some 0
    else if fs.take 2 = [[], []] && decide (fs.drop 2 ≠ []) && (fs.drop 2).all (· ≠ []) then
      match parseRun true (fs.drop 2) with
      | some gs => if gs.length ≤ 7 then some (groupsToNat gs) else none
      | none => none
    else none
  else if R = [[], []] then
    match parseRun false L with
    | some gs => if gs.length ≤ 7 then some (padShift gs) else none
    | none => none
  else if R.take 1 = [[]] && decide (R.drop 1 ≠ []) && (R.drop 1).all (· ≠ []) then
    match parseRun false L, parseRun true (R.drop 1) with
    | some gl, some gr =>
      if gl.length + gr.length ≤ 7 then some (padShift gl + groupsToNat gr) else none
    | _, _ => none
  else none

/-- Is a 128-bit value an IPv4-mapped address (`0:…:0:ffff:a.b.c.d`),
i.e. does Go `IP.To4` succeed on its 16-byte form? -/
def isMapped (v : Nat) : Bool := v / 2 ^ 32 = 0xffff

/-- Canonicalise a parsed 128-bit address the way every use site in the
source does via `IP.To4`: IPv4-mapped values become 4-byte IPv4. -/
def canonIp (v : Nat) : Ip :=
  if isMapped v then ⟨.v4, v % 2 ^ 32⟩ else ⟨.v6, v⟩

/-- Go `net.ParseIP` followed by the `To4` canonicalisation the caller
(`parseObject`) performs. -/
def parseIP (s : Str) : Option Ip :=
  match parseIPv4 s with
  | some a => some ⟨.v4, a⟩
  | none => (parseIPv6 s).map canonIp

/-- The prefix-length text of a CIDR: Go `ParseCIDR` requires a nonempty
all-digit suffix with value at most the bit width of the address. -/
def parseMask (s : Str) (bits : Nat) : Option Nat :=
  if decide (s ≠ []) && s.all isDig && decide (decVal s ≤ bits) then some (decVal s) else none

/-- Split a string at the first occurrence of a separator character
(Go `byteIndex` slicing in `ParseCIDR`). -/
def splitFirst (sep : Char) : Str → Option (Str × Str)
  | [] => none
  | c :: cs =>
    if c = sep then some ([], cs)
    else (splitFirst sep cs).map (fun r => (c :: r.1, r.2))

/-- Clear all but the top `p` bits of a `bits`-wide address
(Go `IP.Mask` with `CIDRMask(p, bits)`). -/
def maskIt (bits p a : Nat) : Nat := a - a % 2 ^ (bits - p)

/-- Go `net.ParseCIDR` before masking: family of the address text, the
unmasked address value, and the prefix length. -/
def parseCIDRraw (s : Str) : Option (Fam × Nat × Nat) :=
  match splitFirst '/' s with
  | none => none
  | some (addr, m) =>
    match parseIPv4 addr with
    | some a => (parseMask m 32).map (fun p => (Fam.v4, a, p))
    | none =>
      match parseIPv6 addr with
      | some a => (parseMask m 128).map (fun p => (Fam.v6, a, p))
      | none => none

/-- The `*net.IPNet` result of Go `ParseCIDR`: the address is masked, the
family records the byte length of the stored address and mask. -/
def parseCIDR (s : Str) : Option IPNet :=
  (parseCIDRraw s).map (fun r => ⟨r.1, maskIt (famBits r.1) r.2.2 r.2.1, r.2.2⟩)

/-- The first (`IP`) result of Go `ParseCIDR`, with the caller's `To4`
canonicalisation — `parseObject` keeps the unmasked host address. -/
def parseCIDRip (s : Str) : Option Ip :=
  (parseCIDRraw s).map (fun r =>
    match r.1 with
    | .v4 => ⟨.v4, r.2.1⟩
    | .v6 => canonIp r.2.1)

/-- Go `networkNumberAndMask`: a network stored as 16 bytes whose address
is IPv4-mapped is viewed as an IPv4 network with the low 32 mask bits
(prefix length minus 96, truncated at zero).  Both `IPNet.Contains` and
`IPNet.String` go through this view. -/
def netCanon (n : IPNet) : IPNet :=
  match n.fam with
  | .v4 => n
  | .v6 => if isMapped n.addr then ⟨.v4, n.addr % 2 ^ 32, n.plen - 96⟩ else n

/-- Go `IPNet.Contains`: families must agree after canonicalisation and
the masked addresses must coincide. -/
def containsIp (n : IPNet) (ip : Ip) : Bool :=
  let c := netCanon n
  c.fam = ip.fam && maskIt (famBits c.fam) c.plen ip.val = maskIt (famBits c.fam) c.plen c.addr

/-- One byte of a CIDR mask: `p` leading one bits (`p ≤ 8`). -/
def maskByte (p : Nat) : Nat := 256 - 2 ^ (8 - p)

/-- The byte slice of Go `CIDRMask(p, 8*w)`. -/
def mkMask : Nat → Nat → List Nat
  | _, 0 => []
  | p, w + 1 => (if 8 ≤ p then 255 else maskByte p) :: mkMask (p - 8) w

/-- The stored mask bytes of a parsed network (`IPNet.Mask`). -/
def maskBytes (n : IPNet) : List Nat := mkMask n.plen (famBytes n.fam)

/-- Go `bytes.Compare`: lexicographic byte-slice comparison where a
proper prefix sorts first. -/
def cmpBytes : List Nat → List Nat → Ordering
  | [], [] => .eq
  | [], _ :: _ => .lt
  | _ :: _, [] => .gt
  | a :: as, b :: bs => if a < b then .lt else if b < a then .gt else cmpBytes as bs

/-- Dotted-quad rendering of a 4-byte address (Go `IP.String`). -/
def v4Str (a : Nat) : Str :=
  natToDec (a / 16777216 % 256) ++ '.' :: natToDec (a / 65536 % 256) ++
    '.' :: natToDec (a / 256 % 256) ++ '.' :: natToDec (a % 256)

/-- Leftmost longest run of zero groups (length at least 2), mirroring the
zero-run search in Go `IP.String`; returns start and length (length 0 when
no compressible run exists). -/
def bestRun (gs : List Nat) : Nat × Nat :=
  (List.range gs.length).foldl
    (fun best i =>
      let l := ((gs.drop i).takeWhile (· = 0)).length
      if best.2 < l then (i, l) else best)
    (0, 0)

/-- Join 16-bit groups with colons in lowercase hex. -/
def joinHex (gs : List Nat) : Str :=
  match gs with
  | [] => []
  | g :: rest => rest.foldl (fun acc h => acc ++ ':' :: natToHex h) (natToHex g)

/-- RFC 5952 rendering of a 16-byte address (Go `IP.String` for addresses
that are not IPv4-mapped). -/
def v6Str (v : Nat) : Str :=
  let gs := (List.range 8).map (fun i => v / 65536 ^ (7 - i) % 65536)
  let b := bestRun gs
  if b.2 < 2 then joinHex gs
  else joinHex (gs.take b.1) ++ ':' :: ':' :: joinHex (gs.drop (b.1 + b.2))

/-- Go `IPNet.String()`: the canonicalised network address, a slash, and
the decimal prefix length. -/
def netString (n : IPNet) : Str :=
  let c := netCanon n
  (match c.fam with
   | .v4 => v4Str c.addr
   | .v6 => v6Str c.addr) ++ '/' :: natToDec c.plen

/-- Encoding of a record key to its on-disk name
(`strings.Replace(s, "/", "_", -1)` in `printNet`). -/
def encodeName (s : Str) : Str := replaceAll '/' '_' s

/-- Decoding of an on-disk name back to CIDR text
(`strings.Replace(name, "_", "/", -1)` in `readCidrs`). -/
def decodeName (s : Str) : Str := replaceAll '_' '/' s

/-!
## The registry collaborator and the CIDR index loader

The registry root (`Registry.DataPath`) holds one directory per type
name; `readCidrs` lists such a directory and builds the insertion-sorted
network list (`src/whois/query.go:103-129`).  The filesystem is modelled
as a list of directories of named files; a file can be marked unreadable
to model `os.Open` failures other than non-existence.
-/

/-- One file of a registry directory. -/
structure RegFile where
  fname : Str
  contents : Str
  readable : Bool

/-- One per-type directory of the registry. -/
structure RegDir where
  dname : Str
  entries : List RegFile

/-- The registry root directory. -/
abbrev Registry := List RegDir

/-- Locate a per-type directory. -/
def findDir (reg : Registry) (d : Str) : Option RegDir :=
  reg.find? (fun x => x.dname == d)

/-- Result of `os.Open` on a record file. -/
inductive FileResult
  | contents (c : Str)
  | notExist
  | otherErr
deriving DecidableEq

/-- Open the record file `DataPath/ty/obj`.  A missing directory or file
is `notExist`; an unreadable file is the `otherErr` case
(e.g. a permission error). -/
def openFile (reg : Registry) (ty obj : Str) : FileResult :=
  match findDir reg ty with
  | none => .notExist
  | some d =>
    match d.entries.find? (fun f => f.fname == obj) with
    | none => .notExist
    | some f => if f.readable then .contents f.contents else .otherErr

/-- `ioutil.ReadDir` on `DataPath/d`: the entry names, or `none` when the
directory cannot be listed.  Go's `ReadDir` returns entries sorted by
filename; the model takes the directory's list as the listing order —
`readCidrs` re-sorts by mask, and no claim depends on the relative order
of same-length prefixes, which is the only trace the listing order
leaves. -/
def readDirNames (reg : Registry) (d : Str) : Option (List Str) :=
  (findDir reg d).map (fun x => x.entries.map (·.fname))

/-- Decode one directory-entry name: replace `_` by `/` and parse as a
CIDR (`src/whois/query.go:110-111`). -/
def decodeEntry (f : Str) : Option IPNet := parseCIDR (decodeName f)

/-- The `sort.Search` predicate of `readCidrs`:
`bytes.Compare(existing.Mask, new.Mask) >= 0`. -/
def maskGe (x c : IPNet) : Bool := cmpBytes (maskBytes x) (maskBytes c) ≠ .lt

/-- Insertion at the position found by `sort.Search`
(`src/whois/query.go:116-125`): before the first element whose mask
compares greater or equal.  On the sorted lists arising here this is
exactly what the binary search of `sort.Search` computes. -/
def insertCidr (c : IPNet) : List IPNet → List IPNet
  | [] => [c]
  | x :: xs => if maskGe x c then c :: x :: xs else x :: insertCidr c xs

/-- The entry loop of `readCidrs`: decode each name, skip entries that do
not parse, insert the rest keeping the list sorted by mask. -/
def readCidrsAux : List Str → List IPNet → List IPNet
  | [], acc => acc
  | f :: fs, acc =>
    match decodeEntry f with
    | none => readCidrsAux fs acc
    | some c => readCidrsAux fs (insertCidr c acc)

/-- `readCidrs` (`src/whois/query.go:103-129`) on a directory listing. -/
def readCidrs (names : List Str) : List IPNet := readCidrsAux names []

/-- The containment scan of `printNet`: every loaded entry whose network
contains the query address, in list order. -/
def matchingNetworks (names : List Str) (ip : Ip) : List IPNet :=
  (readCidrs names).filter (fun c => containsIp c ip)

/-!
## The lookup engine (`handleObject`, `printNet`, `printObject`)
-/

/-- The record header line written by `printObject`
(`src/whois/query.go:224`; `file[len(r.DataPath)+1:]` is `ty ++ "/" ++ obj`
for the clean path components produced by the engine). -/
def headerLine (ty obj : Str) : Str :=
  str "% Information related to '" ++ ty ++ '/' :: obj ++ str "':\n"

/-- Representative text of the stderr log line `printObject` emits for an
open failure other than non-existence (the Go code prints the
`*PathError`). -/
def errLogLine (ty obj : Str) : Str :=
  str "Error: open " ++ ty ++ '/' :: obj ++ str ": permission denied\n"

/-- `printObject` (`src/whois/query.go:212-227`).  Returns the bytes
written to the connection and the bytes written to the stderr log: a
missing file yields nothing at all, any other open failure yields only a
log line, and a readable file yields the header, the raw contents, and a
blank line on the connection. -/
def printObject (reg : Registry) (ty obj : Str) : Str × Str :=
  match openFile reg ty obj with
  | .notExist => ([], [])
  | .otherErr => ([], errLogLine ty obj)
  | .contents c => (headerLine ty obj ++ c ++ ['\n'], [])

/-- One iteration of the containment loop of `printNet`: a containing
network appends its record and sets `found`. -/
def netStep (reg : Registry) (tyName : Str) (ip : Ip) (acc : Str × Bool) (c : IPNet) :
    Str × Bool :=
  if containsIp c ip then
    (acc.1 ++ (printObject reg tyName (encodeName (netString c))).1, true)
  else acc

/-- `printNet` (`src/whois/query.go:194-210`): load the type's directory
(a listing error only logs to stdout and leaves no entries), then print
every containing network's record, keyed by the underscore-encoded
`IPNet.String()`.  Returns the connection bytes and the `found` flag. -/
def printNet (reg : Registry) (tyName : Str) (ip : Ip) : Str × Bool :=
  let cidrs :=
    match readDirNames reg tyName with
    | some names => readCidrs names
    | none => []
  cidrs.foldl (netStep reg tyName ip) ([], false)

/-- A value stored in the per-query object map (`map[int]interface{}`). -/
inductive GoVal
  | strv (s : Str)
  | ipv (ip : Ip)

/-- The per-query object map (`Object` in `src/whois/query.go:27`). -/
def Object := Kind → Option GoVal

/-- `parseObject` (`src/whois/query.go:131-150`): take the final path
segment, store its upper- and lowercase forms, and, when the segment
parses as an IP (or the whole argument as a CIDR), store the address
under the key of its family (`To4()` decides between `ROUTE` and
`ROUTE6`). -/
def parseObject (arg : Str) : Object :=
  let obj := pathBase arg
  let ip : Option Ip :=
    match parseIP obj with
    | some i => some i
    | none => parseCIDRip arg
  fun k =>
    match k with
    | .UPPER => some (.strv (toUpperStr obj))
    | .LOWER => some (.strv (toLowerStr obj))
    | .ROUTE =>
      match ip with
      | some ⟨.v4, v⟩ => some (.ipv ⟨.v4, v⟩)
      | _ => none
    | .ROUTE6 =>
      match ip with
      | some ⟨.v6, v⟩ => some (.ipv ⟨.v6, v⟩)
      | _ => none

/-- The condition `t.Kind == ROUTE || t.Kind == ROUTE6` of
`handleObject`. -/
def isNetKind : Kind → Bool
  | .ROUTE => true
  | .ROUTE6 => true
  | _ => false

/-- One catalog entry of the `handleObject` loop
(`src/whois/query.go:61-73`): the updated output/found accumulator, or
`none` for a Go panic (the unchecked type assertions
`object[t.Kind].(string)` / `.(net.IP)` on a missing or wrongly-typed
entry).  For network kinds the Go code computes
`found = found || r.printNet(...)`: when `found` already holds, the
short-circuit of `||` skips the whole call — including its argument's
type assertion — so the entry neither looks anything up nor appends
output. -/
def objStep (reg : Registry) (o : Object) (out : Str) (found : Bool) (t : WhoisType) :
    Option (Str × Bool) :=
  if isNetKind t.kind then
    match o t.kind with
    | none => some (out, found)
    | some v =>
      if found then some (out, true)
      else
        match v with
        | .ipv ip =>
          let r := printNet reg t.name ip
          some (out ++ r.1, r.2)
        | .strv _ => none
  else
    match o t.kind with
    | some (.strv s) =>
      if t.pattern s then some (out ++ (printObject reg t.name s).1, true)
      else some (out, found)
    | _ => none

/-- The catalog walk of `handleObject`, threading the output and the
`found` flag through `objStep`. -/
def handleObjectAux (reg : Registry) (o : Object) :
    List WhoisType → Str → Bool → Option (Str × Bool)
  | [], out, found => some (out, found)
  | t :: ts, out, found =>
    match objStep reg o out found t with
    | none => none
    | some r => handleObjectAux reg o ts r.1 r.2

/-- `handleObject` over the full catalog; returns the connection output
and the `found` flag, or `none` for a panic. -/
def handleObject (reg : Registry) (o : Object) : Option (Str × Bool) :=
  handleObjectAux reg o whoisTypes [] false

/-- The object loop of `HandleQuery` (`src/whois/query.go:90-95`). -/
def handleObjects (reg : Registry) : List Object → Option (Str × Bool)
  | [] => some ([], false)
  | o :: os =>
    match handleObject reg o with
    | none => none
    | some r =>
      match handleObjects reg os with
      | none => none
      | some rs => some (r.1 ++ rs.1, r.2 || rs.2)

/-!
## Request parsing (`parseQuery`, `shellSplit`, `parseFlags`)
-/

/-- Does a token open a quoted block, and with which quote character? -/
def startQuote : Str → Option Char
  | c :: _ => if c = '\'' || c = '"' then some c else none
  | [] => none

/-- The token loop of `shellSplit` (`whois` package `flags.go`): tokens
are space-separated; a token starting with a quote opens a block that is
closed by the next token ending with the same quote; an unterminated
block is dropped. -/
def shellSplitAux : List Str → Option (Char × Str) → List Str
  | [], _ => []
  | i :: rest, none =>
    match startQuote i with
    | some q => shellSplitAux rest (some (q, i.drop 1 ++ [' ']))
    | none => i :: shellSplitAux rest none
  | i :: rest, some (q, block) =>
    if hasSuffix i [q] then (block ++ i.dropLast) :: shellSplitAux rest none
    else shellSplitAux rest (some (q, block ++ i ++ [' ']))

/-- `shellSplit` of the request line. -/
def shellSplit (s : Str) : List Str := shellSplitAux (splitOnChar ' ' s) none

/-- The parsed flags (`Flags` in the `whois` package `flags.go`). -/
structure Flags where
  serverInfo : Str
  args : List Str

/-- An error from `flag.FlagSet.Parse` (`flag.ErrHelp` or a message). -/
inductive FlagErr
  | help
  | msg (m : Str)

/-- Go `flag.FlagSet.Parse` for the flag set of `parseFlags`, which
defines the single string flag `q`: scan leading `-`/`--` flags, stop at
the first non-flag argument or after `--`, take a flag value from the
`name=value` form or from the next argument. -/
def parseFlagSet : List Str → Str → Except FlagErr Flags
  | [], q => .ok ⟨q, []⟩
  | s :: rest, q =>
    if s.length < 2 || s.head? ≠ some '-' then .ok ⟨q, s :: rest⟩
    else if s = str "--" then .ok ⟨q, rest⟩
    else
      let numMinuses := if (s.drop 1).head? = some '-' then 2 else 1
      let name := s.drop numMinuses
      match name with
      | [] => .error (.msg (str "bad flag syntax: " ++ s))
      | c :: _ =>
        if c = '-' || c = '=' then .error (.msg (str "bad flag syntax: " ++ s))
        else
          let fname := match splitFirst '=' name with
            | some r => r.1
            | none => name
          if fname = str "q" then
            match splitFirst '=' name with
            | some r => parseFlagSet rest r.2
            | none =>
              match rest with
              | v :: rest2 => parseFlagSet rest2 v
              | [] => .error (.msg (str "flag needs an argument: -q"))
          else if fname = str "help" || fname = ['h'] then .error .help
          else .error (.msg (str "flag provided but not defined: -" ++ fname))

/-- `parseFlags` of the `whois` package: shell-split the raw request and
run the flag set over the tokens. -/
def parseFlags (request : Str) : Except FlagErr Flags :=
  parseFlagSet (shellSplit request) []

/-!
## The connection handler (`HandleQuery`, `printServerInfo`)
-/

/-- The greeting banner (`src/whois/query.go:78`). -/
def banner : Str := str "% This is the dn42 whois query service.\n\n"

/-- Modelled from the spec: the numeric version constant `VERSION`
interpolated by `printServerInfo` is defined outside the provided source
files; the spec only requires "a line embedding a numeric version
constant", so its concrete value is immaterial to the claims. -/
def VERSION : Nat := 1

/-- The `flag.PrintDefaults` output of the `-q` flag set, written to the
connection on a flag-parse error. -/
def usageText : Str :=
  str "  -q string\n    \t[version|sources|types] query specified server info\n"

/-- `printServerInfo` (`src/whois/query.go:179-192`).  The default case
renders Go `fmt.Fprintf` on the malformed format string
`"% unknown option %s\n"`: the space flag makes `%​ u` an invalid verb, so
the output is the `%!u(string=…)` bad-verb form followed by the literal
rest and a missing-operand `%s`. -/
def printServerInfo (what : Str) : Str :=
  if what = str "version" then str "% whois42d v" ++ natToDec VERSION ++ ['\n']
  else if what = str "sources" then str "DN42:3:N:0-0\n"
  else if what = str "types" then (whoisTypes.map (fun t => t.name ++ ['\n'])).flatten
  else str "%!u(string=" ++ what ++ str ")nknown option %!s(MISSING)\n"

/-- `bufio.Reader.ReadString('\n')`: the prefix of the connection input up
to and including the first newline, or `none` (an error return) when no
newline arrives. -/
def readLine : Str → Option Str
  | [] => none
  | c :: cs => if c = '\n' then some ['\n'] else (readLine cs).map (c :: ·)

/-- `HandleQuery` (`src/whois/query.go:77-101`) composed with
`parseQuery`: the full connection output for a given registry and raw
connection input.  `none` models a panic inside `handleObject`; a failed
line read yields just the banner; a flag error echoes the error and the
usage text; a server-info flag bypasses lookup; otherwise every argument
is looked up and `% 404` is emitted exactly when no object was found. -/
def handleRequest (reg : Registry) (wire : Str) : Option Str :=
  match readLine wire with
  | none => some banner
  | some req =>
    match parseFlags req with
    | .error .help => some (banner ++ usageText)
    | .error (.msg m) => some (banner ++ m ++ usageText)
    | .ok fl =>
      if fl.serverInfo ≠ [] then some (banner ++ printServerInfo fl.serverInfo)
      else
        match handleObjects reg (fl.args.map (fun a => parseObject (trimSpace a))) with
        | none => none
        | some r =>
          some (banner ++ r.1 ++ (if r.2 then [] else str "% 404\n") ++ ['\n'])

/-!
## The server lifecycle (`Run` and `Shutdown`, `src/server.go:35-64`)

Each listener runs the accept loop of `Run`: test the `stopListening`
flag, then block in `SetDeadline`/`AcceptTCP`; a successful accept adds a
handler to the wait group (`activeWorkers.Add(1)`) and dispatches it; a
deadline expiry re-enters the loop; a flag observed as set exits the loop
(releasing the loop's own wait-group slot).  `Shutdown` stores the flag
and then blocks in `activeWorkers.Wait()` until the group count is zero.
Loops are interchangeable, so the interleaving semantics tracks how many
loops sit at each program point rather than loop identities.  Fatal
accept errors (which call `os.Exit`) are outside the drain scenario and
not modelled.
-/

/-- Global state of the lifecycle: the stop flag, the number of accept
loops at each program point, the handler counters, and whether
`Shutdown` has returned.  `wgAt + wgPost + pending` is the value of the
`activeWorkers` wait-group counter. -/
structure SState where
  stop : Bool
  wgAt : Nat
  wgPost : Nat
  wgGone : Nat
  pending : Nat
  dispatched : Nat
  finished : Nat
  retDone : Bool
deriving DecidableEq

/-- The `activeWorkers` wait-group counter: one slot per running accept
loop plus one per in-flight connection handler. -/
def wgCount (s : SState) : Nat := s.wgAt + s.wgPost + s.pending

/-- Atomic events of the lifecycle. -/
inductive Ev
  | check
  | acceptConn
  | timeout
  | finish
  | setStop
  | shutdownRet
deriving DecidableEq

/-- One interleaving step.  `check`: a loop at the top of the `for` reads
the flag and either exits or proceeds towards `AcceptTCP`.  `acceptConn`:
a loop past the check accepts a connection, increments the wait group and
dispatches a handler, and re-enters the loop.  `timeout`: the accept
deadline expires and the loop re-enters.  `finish`: an in-flight handler
completes (`activeWorkers.Done()`).  `setStop`: `Shutdown` stores the
flag.  `shutdownRet`: `activeWorkers.Wait()` returns, which requires a
zero wait-group count. -/
def step (s : SState) : Ev → Option SState
  | .check =>
    match s.wgAt with
    | 0 => none
    | a + 1 =>
      some (if s.stop then { s with wgAt := a, wgGone := s.wgGone + 1 }
            else { s with wgAt := a, wgPost := s.wgPost + 1 })
  | .acceptConn =>
    match s.wgPost with
    | 0 => none
    | p + 1 =>
      some { s with wgPost := p, wgAt := s.wgAt + 1,
                    pending := s.pending + 1, dispatched := s.dispatched + 1 }
  | .timeout =>
    match s.wgPost with
    | 0 => none
    | p + 1 => some { s with wgPost := p, wgAt := s.wgAt + 1 }
  | .finish =>
    match s.pending with
    | 0 => none
    | p + 1 => some { s with pending := p, finished := s.finished + 1 }
  | .setStop => if s.stop then none else some { s with stop := true }
  | .shutdownRet =>
    if s.stop && decide (wgCount s = 0) && !s.retDone then
      some { s with retDone := true }
    else none

/-- Run a sequence of interleaving events. -/
def runEvs (s : SState) : List Ev → Option SState
  | [] => some s
  | e :: es => (step s e).bind (fun s2 => runEvs s2 es)

/-- Initial state for `k` listeners: every accept loop at the flag check,
no handlers, flag clear. -/
def initState (k : Nat) : SState := ⟨false, k, 0, 0, 0, 0, 0, false⟩

/-- Number of accepted connections in an event sequence. -/
def countAccepts (evs : List Ev) : Nat :=
  (evs.filter (fun e => e = .acceptConn)).length

/-!
## Lemmas about the lifecycle (claim C8)
-/

/-- The invariant maintained by every step: handler accounting balances
(`dispatched = pending + finished`, so handlers only leave the system by
finishing), and once `Shutdown` has returned the wait group is empty. -/
def LInv (s : SState) : Prop :=
  s.dispatched = s.pending + s.finished ∧
  (s.retDone = true → s.pending = 0 ∧ s.wgAt = 0 ∧ s.wgPost = 0)

/-- No step clears the stop flag. -/
lemma step_stop (s s2 : SState) (e : Ev) (h : step s e = some s2)
    (hs : s.stop = true) : s2.stop = true := by
  cases e with
  | check =>
    simp only [step] at h
    cases ha : s.wgAt with
    | zero => rw [ha] at h; cases h
    | succ a =>
      rw [ha] at h
      rw [← Option.some.inj h]
      split <;> exact hs
  | acceptConn =>
    simp only [step] at h
    cases hp : s.wgPost with
    | zero => rw [hp] at h; cases h
    | succ p => rw [hp] at h; rw [← Option.some.inj h]; exact hs
  | timeout =>
    simp only [step] at h
    cases hp : s.wgPost with
    | zero => rw [hp] at h; cases h
    | succ p => rw [hp] at h; rw [← Option.some.inj h]; exact hs
  | finish =>
    simp only [step] at h
    cases hp : s.pending with
    | zero => rw [hp] at h; cases h
    | succ p => rw [hp] at h; rw [← Option.some.inj h]; exact hs
  | setStop =>
    simp only [step] at h
    rw [if_pos hs] at h
    cases h
  | shutdownRet =>
    simp only [step] at h
    split at h
    · rw [← Option.some.inj h]; exact hs
    · cases h

/-- Every step preserves the accounting invariant. -/
lemma step_inv (s s2 : SState) (e : Ev) (h : step s e = some s2) (hi : LInv s) :
    LInv s2 := by
  obtain ⟨h1, h2⟩ := hi
  cases e with
  | check =>
    simp only [step] at h
    cases ha : s.wgAt with
    | zero => rw [ha] at h; cases h
    | succ a =>
      rw [ha] at h
      rw [← Option.some.inj h]
      by_cases hst : s.stop = true
      · rw [if_pos hst]
        exact ⟨h1, fun hr => absurd (h2 hr).2.1 (by omega)⟩
      · rw [if_neg hst]
        exact ⟨h1, fun hr => absurd (h2 hr).2.1 (by omega)⟩
  | acceptConn =>
    simp only [step] at h
    cases hp : s.wgPost with
    | zero => rw [hp] at h; cases h
    | succ p =>
      rw [hp] at h
      rw [← Option.some.inj h]
      exact ⟨by dsimp only; omega, fun hr => absurd (h2 hr).2.2 (by omega)⟩
  | timeout =>
    simp only [step] at h
    cases hp : s.wgPost with
    | zero => rw [hp] at h; cases h
    | succ p =>
      rw [hp] at h
      rw [← Option.some.inj h]
      exact ⟨h1, fun hr => absurd (h2 hr).2.2 (by omega)⟩
  | finish =>
    simp only [step] at h
    cases hp : s.pending with
    | zero => rw [hp] at h; cases h
    | succ p =>
      rw [hp] at h
      rw [← Option.some.inj h]
      exact ⟨by dsimp only; omega, fun hr => absurd (h2 hr).1 (by omega)⟩
  | setStop =>
    simp only [step] at h
    split at h
    · cases h
    · rw [← Option.some.inj h]
      exact ⟨h1, h2⟩
  | shutdownRet =>
    simp only [step] at h
    split at h
    · rename_i hc
      simp only [Bool.and_eq_true, decide_eq_true_eq] at hc
      have hwg : wgCount s = 0 := hc.1.2
      unfold wgCount at hwg
      rw [← Option.some.inj h]
      exact ⟨h1, fun _ => by dsimp only; omega⟩
    · cases h

/-- Running a trace preserves the invariant. -/
lemma runEvs_inv : ∀ (evs : List Ev) (s s2 : SState),
    runEvs s evs = some s2 → LInv s → LInv s2 := by
  intro evs
  induction evs with
  | nil => intro s s2 h hi; rw [← Option.some.inj h]; exact hi
  | cons e es ih =>
    intro s s2 h hi
    simp only [runEvs] at h
    cases hstep : step s e with
    | none => rw [hstep] at h; cases h
    | some m =>
      rw [hstep] at h
      exact ih m s2 h (step_inv s m e hstep hi)

/-- Running a trace keeps the stop flag set. -/
lemma runEvs_stop : ∀ (evs : List Ev) (s s2 : SState),
    runEvs s evs = some s2 → s.stop = true → s2.stop = true := by
  intro evs
  induction evs with
  | nil => intro s s2 h hs; rw [← Option.some.inj h]; exact hs
  | cons e es ih =>
    intro s s2 h hs
    simp only [runEvs] at h
    cases hstep : step s e with
    | none => rw [hstep] at h; cases h
    | some m =>
      rw [hstep] at h
      exact ih m s2 h (step_stop s m e hstep hs)

/-- A trace splits into its prefix's run and the remainder's run. -/
lemma runEvs_append (l1 l2 : List Ev) : ∀ (s : SState),
    runEvs s (l1 ++ l2) = (runEvs s l1).bind (fun m => runEvs m l2) := by
  induction l1 with
  | nil => intro s; rfl
  | cons e es ih =>
    intro s
    show (step s e).bind (fun m => runEvs m (es ++ l2)) =
      ((step s e).bind (fun m => runEvs m es)).bind (fun m => runEvs m l2)
    cases step s e with
    | none => rfl
    | some m => exact ih m

/-- After the stop flag is set, the remaining accepts are bounded by the
number of loops already past their flag check. -/
lemma accepts_bound : ∀ (evs : List Ev) (s s2 : SState), s.stop = true →
    runEvs s evs = some s2 → countAccepts evs ≤ s.wgPost := by
  intro evs
  induction evs with
  | nil => intro s s2 _ _; simp [countAccepts]
  | cons e es ih =>
    intro s s2 hst h
    simp only [runEvs] at h
    cases hstep : step s e with
    | none => rw [hstep] at h; cases h
    | some m =>
      rw [hstep] at h
      have hih := ih m s2 (step_stop s m e hstep hst) h
      cases e with
      | acceptConn =>
        simp only [step] at hstep
        cases hp : s.wgPost with
        | zero => rw [hp] at hstep; cases hstep
        | succ p =>
          rw [hp] at hstep
          have hpost : m.wgPost = p := by rw [← Option.some.inj hstep]
          simp [countAccepts] at hih ⊢
          omega
      | check =>
        simp only [step] at hstep
        cases ha : s.wgAt with
        | zero => rw [ha] at hstep; cases hstep
        | succ a =>
          rw [ha] at hstep
          have hm := Option.some.inj hstep
          rw [if_pos hst] at hm
          have hpost : m.wgPost = s.wgPost := by rw [← hm]
          simp [countAccepts] at hih ⊢
          omega
      | timeout =>
        simp only [step] at hstep
        cases hp : s.wgPost with
        | zero => rw [hp] at hstep; cases hstep
        | succ p =>
          rw [hp] at hstep
          have hpost : m.wgPost = p := by rw [← Option.some.inj hstep]
          simp [countAccepts] at hih ⊢
          omega
      | finish =>
        simp only [step] at hstep
        cases hp : s.pending with
        | zero => rw [hp] at hstep; cases hstep
        | succ p =>
          rw [hp] at hstep
          have hpost : m.wgPost = s.wgPost := by rw [← Option.some.inj hstep]
          simp [countAccepts] at hih ⊢
          omega
      | setStop =>
        simp only [step] at hstep
        rw [if_pos hst] at hstep
        cases hstep
      | shutdownRet =>
        simp only [step] at hstep
        split at hstep
        · have hpost : m.wgPost = s.wgPost := by rw [← Option.some.inj hstep]
          simp [countAccepts] at hih ⊢
          omega
        · cases hstep

/-!
## Sample registries used by concrete scenarios
-/

/-- A registry whose `route` directory holds the single entry
`172.23.136.0_23` (the scenario of the spec). -/
def regRoute : Registry :=
  [⟨str "route", [⟨str "172.23.136.0_23", str "route: 172.23.136.0/23\n", true⟩]⟩]

/-- A registry where both the `inetnum` and the `route` directory contain
an entry covering `172.23.136.1`. -/
def regBoth : Registry :=
  [ ⟨str "inetnum",
      [⟨str "172.23.136.0_23", str "inetnum: 172.23.136.0 - 172.23.137.255\n", true⟩]⟩
  , ⟨str "route", [⟨str "172.23.136.0_23", str "route: 172.23.136.0/23\n", true⟩]⟩ ]

/-- A registry whose only record file is unreadable (an `os.Open` failure
that is not `IsNotExist`). -/
def regUnreadable : Registry :=
  [⟨str "mntner", [⟨str "X-MNT", str "mntner: X-MNT\n", false⟩]⟩]

/-!
## Lemmas about the lookup engine
-/

/-- Once the containment fold of `printNet` has set `found`, it stays
set. -/
lemma netFold_true (reg : Registry) (n : Str) (ip : Ip) :
    ∀ (cs : List IPNet) (acc : Str × Bool), acc.2 = true →
      (cs.foldl (netStep reg n ip) acc).2 = true := by
  intro cs
  induction cs with
  | nil => intro acc h; exact h
  | cons c cs ih =>
    intro acc h
    simp only [List.foldl_cons]
    apply ih
    unfold netStep
    split
    · rfl
    · exact h

/-- If the containment fold reports `found = false`, no entry contained
the address and the accumulator is unchanged. -/
lemma netFold_false (reg : Registry) (n : Str) (ip : Ip) :
    ∀ (cs : List IPNet) (acc : Str × Bool),
      (cs.foldl (netStep reg n ip) acc).2 = false →
      cs.foldl (netStep reg n ip) acc = acc := by
  intro cs
  induction cs with
  | nil => intro acc _; rfl
  | cons c cs ih =>
    intro acc h
    simp only [List.foldl_cons] at h ⊢
    by_cases hc : containsIp c ip = true
    · have ht := netFold_true reg n ip cs (netStep reg n ip acc c)
        (by simp [netStep, hc])
      rw [ht] at h
      cases h
    · have hstep : netStep reg n ip acc c = acc := by simp [netStep, hc]
      rw [hstep] at h ⊢
      exact ih acc h

/-- A `printNet` call that reports `found = false` wrote nothing to the
connection. -/
lemma printNet_false (reg : Registry) (n : Str) (ip : Ip)
    (h : (printNet reg n ip).2 = false) : printNet reg n ip = ([], false) := by
  unfold printNet at h ⊢
  exact netFold_false reg n ip _ ([], false) h

/-- `objStep` keeps the `found` flag set. -/
lemma objStep_true (reg : Registry) (o : Object) (out : Str) (t : WhoisType)
    (r : Str × Bool) (h : objStep reg o out true t = some r) : r.2 = true := by
  unfold objStep at h
  split at h
  · cases ho : o t.kind with
    | none => rw [ho] at h; exact (Option.some.inj h) ▸ rfl
    | some v => rw [ho] at h; simp only [if_pos rfl] at h; exact (Option.some.inj h) ▸ rfl
  · cases ho : o t.kind with
    | none => rw [ho] at h; cases h
    | some v =>
      rw [ho] at h
      cases v with
      | ipv ip => cases h
      | strv s =>
        by_cases hp : t.pattern s = true
        · simp only [hp, if_true] at h; exact (Option.some.inj h) ▸ rfl
        · simp only [hp, if_false] at h; exact (Option.some.inj h) ▸ rfl

/-- An `objStep` that reports `found = false` appended nothing and
started with a clear flag. -/
lemma objStep_false (reg : Registry) (o : Object) (out : Str) (found : Bool)
    (t : WhoisType) (r : Str × Bool) (h : objStep reg o out found t = some r)
    (hf : r.2 = false) : r.1 = out ∧ found = false := by
  cases found with
  | true => rw [objStep_true reg o out t r h] at hf; cases hf
  | false =>
    refine ⟨?_, rfl⟩
    unfold objStep at h
    split at h
    · cases ho : o t.kind with
      | none => rw [ho] at h; exact congrArg Prod.fst (Option.some.inj h).symm
      | some v =>
        rw [ho] at h
        simp only [if_neg (by exact Bool.false_ne_true)] at h
        cases v with
        | strv s => cases h
        | ipv ip =>
          have hr := Option.some.inj h
          have hpn : (printNet reg t.name ip).2 = false := by
            rw [← hr] at hf; exact hf
          have := printNet_false reg t.name ip hpn
          rw [← hr, this]
          simp
    · cases ho : o t.kind with
      | none => rw [ho] at h; cases h
      | some v =>
        rw [ho] at h
        cases v with
        | ipv ip => cases h
        | strv s =>
          by_cases hp : t.pattern s = true
          · simp only [hp, if_true] at h
            rw [← Option.some.inj h] at hf
            cases hf
          · simp only [hp, if_false] at h
            exact congrArg Prod.fst (Option.some.inj h).symm

/-- A catalog walk that ends with a clear `found` flag appended nothing
and started with a clear flag. -/
lemma handleObjectAux_false (reg : Registry) (o : Object) :
    ∀ (ts : List WhoisType) (out : Str) (found : Bool) (r : Str × Bool),
      handleObjectAux reg o ts out found = some r → r.2 = false →
      r.1 = out ∧ found = false := by
  intro ts
  induction ts with
  | nil =>
    intro out found r h hf
    exact ⟨congrArg Prod.fst (Option.some.inj h).symm,
      by rw [← (Option.some.inj h)] at hf; exact hf⟩
  | cons t ts ih =>
    intro out found r h hf
    unfold handleObjectAux at h
    cases hq : objStep reg o out found t with
    | none => rw [hq] at h; cases h
    | some q =>
      rw [hq] at h
      obtain ⟨h1, h2⟩ := ih q.1 q.2 r h hf
      obtain ⟨h3, h4⟩ := objStep_false reg o out found t q hq h2
      exact ⟨h1.trans h3, h4⟩

/-- A `handleObject` call that reports no match wrote nothing. -/
lemma handleObject_false (reg : Registry) (o : Object) (r : Str × Bool)
    (h : handleObject reg o = some r) (hf : r.2 = false) : r.1 = [] :=
  (handleObjectAux_false reg o whoisTypes [] false r h hf).1

/-- If every queried object reports no match, the object loop of
`HandleQuery` produces no output and a clear flag. -/
lemma handleObjects_404 (reg : Registry) :
    ∀ (os : List Object),
      (∀ o ∈ os, (handleObject reg o).map Prod.snd = some false) →
      handleObjects reg os = some ([], false) := by
  intro os
  induction os with
  | nil => intro _; rfl
  | cons o os ih =>
    intro h
    have ho := h o (List.mem_cons_self o os)
    rcases hobj : handleObject reg o with _ | r
    · rw [hobj] at ho; cases ho
    · rw [hobj] at ho
      have hr2 : r.2 = false := Option.some.inj ho
      have hr1 : r.1 = [] := handleObject_false reg o r hobj hr2
      unfold handleObjects
      rw [hobj, ih (fun o2 ho2 => h o2 (List.mem_cons_of_mem o ho2))]
      simp [hr1, hr2]

/-- Shape of every object map built by `parseObject`: the case keys hold
strings and the network keys hold only addresses. -/
def WellObj (o : Object) : Prop :=
  (∃ s, o .UPPER = some (.strv s)) ∧ (∃ s, o .LOWER = some (.strv s)) ∧
    (∀ v, o .ROUTE = some v → ∃ ip, v = .ipv ip) ∧
    (∀ v, o .ROUTE6 = some v → ∃ ip, v = .ipv ip)

/-- `parseObject` always builds a well-shaped object map. -/
lemma parseObject_wellObj (arg : Str) : WellObj (parseObject arg) := by
  refine ⟨⟨_, rfl⟩, ⟨_, rfl⟩, ?_, ?_⟩
  · intro v h
    simp only [parseObject] at h
    split at h
    · exact ⟨_, (Option.some.inj h).symm⟩
    · cases h
  · intro v h
    simp only [parseObject] at h
    split at h
    · exact ⟨_, (Option.some.inj h).symm⟩
    · cases h

/-- On a well-shaped object map no catalog entry panics. -/
lemma objStep_isSome (reg : Registry) (o : Object) (out : Str) (found : Bool)
    (t : WhoisType) (h : WellObj o) : (objStep reg o out found t).isSome = true := by
  obtain ⟨⟨su, hu⟩, ⟨sl, hl⟩, hr, hr6⟩ := h
  obtain ⟨nm, pat, kind⟩ := t
  cases kind with
  | UPPER =>
    cases hp : pat su <;> simp [objStep, isNetKind, hu, hp]
  | LOWER =>
    cases hp : pat sl <;> simp [objStep, isNetKind, hl, hp]
  | ROUTE =>
    cases ho : o .ROUTE with
    | none => simp [objStep, isNetKind, ho]
    | some v =>
      obtain ⟨ip, rfl⟩ := hr v ho
      cases found <;> simp [objStep, isNetKind, ho]
  | ROUTE6 =>
    cases ho : o .ROUTE6 with
    | none => simp [objStep, isNetKind, ho]
    | some v =>
      obtain ⟨ip, rfl⟩ := hr6 v ho
      cases found <;> simp [objStep, isNetKind, ho]

/-- On a well-shaped object map the whole catalog walk returns. -/
lemma handleObjectAux_isSome (reg : Registry) (o : Object) (h : WellObj o) :
    ∀ (ts : List WhoisType) (out : Str) (found : Bool),
      (handleObjectAux reg o ts out found).isSome = true := by
  intro ts
  induction ts with
  | nil => intro _ _; rfl
  | cons t ts ih =>
    intro out found
    have hs := objStep_isSome reg o out found t h
    cases hq : objStep reg o out found t with
    | none => rw [hq] at hs; cases hs
    | some q => simp only [handleObjectAux, hq]; exact ih q.1 q.2

/-!
## Lemmas for the on-disk name round trip (claim C4)
-/

/-- One character of the round trip: encode then decode is the identity
away from `_`. -/
lemma decode_encode_char (c : Char) (hc : c ≠ '_') :
    (if (if c = '/' then '_' else c) = '_' then '/' else (if c = '/' then '_' else c)) = c := by
  by_cases hcs : c = '/'
  · subst hcs; decide
  · rw [if_neg hcs, if_neg hc]

/-- Replacing `/` by `_` and back is the identity on underscore-free
strings. -/
lemma decode_encode_of_no_underscore : ∀ (s : Str), '_' ∉ s →
    decodeName (encodeName s) = s := by
  intro s h
  induction s with
  | nil => rfl
  | cons c cs ih =>
    have hc : c ≠ '_' := fun hh => h (hh ▸ List.mem_cons_self c cs)
    have ihh := ih (fun hm => h (List.mem_cons_of_mem c hm))
    show (if (if c = '/' then '_' else c) = '_' then '/' else (if c = '/' then '_' else c)) ::
      decodeName (encodeName cs) = c :: cs
    rw [decode_encode_char c hc, ihh]

/-- `splitFirst` decomposes its input at the first separator. -/
lemma splitFirst_eq (sep : Char) :
    ∀ (s a b : Str), splitFirst sep s = some (a, b) → s = a ++ sep :: b ∧ sep ∉ a := by
  intro s
  induction s with
  | nil => intro a b h; cases h
  | cons c cs ih =>
    intro a b h
    unfold splitFirst at h
    by_cases hc : c = sep
    · rw [if_pos hc] at h
      obtain ⟨ha, hb⟩ := Prod.mk.injEq .. ▸ Option.some.inj h
      subst ha; subst hb; subst hc
      exact ⟨rfl, List.not_mem_nil _⟩
    · rw [if_neg hc] at h
      cases hsf : splitFirst sep cs with
      | none => rw [hsf] at h; cases h
      | some r =>
        rw [hsf] at h
        simp only [Option.map_some'] at h
        obtain ⟨ha, hb⟩ := Prod.mk.injEq .. ▸ Option.some.inj h
        obtain ⟨h1, h2⟩ := ih r.1 r.2 (by rw [hsf])
        subst ha; subst hb
        refine ⟨by rw [h1]; rfl, ?_⟩
        intro hmem
        rcases List.mem_cons.mp hmem with he | hm
        · exact hc he.symm
        · exact h2 hm

/-- Every character of a string is the separator or sits in one of the
segments of the split. -/
lemma mem_splitAux (sep : Char) :
    ∀ (s : Str) (c : Char), c ∈ s →
      c = sep ∨ c ∈ (splitAux sep s).1 ∨ ∃ f ∈ (splitAux sep s).2, c ∈ f := by
  intro s
  induction s with
  | nil => intro c hc; cases hc
  | cons d ds ih =>
    intro c hc
    unfold splitAux
    by_cases hd : d = sep
    · rw [if_pos hd]
      rcases List.mem_cons.mp hc with he | hm
      · exact Or.inl (he.trans hd)
      · rcases ih c hm with h1 | h2 | ⟨f, hf, hcf⟩
        · exact Or.inl h1
        · exact Or.inr (Or.inr ⟨(splitAux sep ds).1, List.mem_cons_self _ _, h2⟩)
        · exact Or.inr (Or.inr ⟨f, List.mem_cons_of_mem _ hf, hcf⟩)
    · rw [if_neg hd]
      rcases List.mem_cons.mp hc with he | hm
      · exact Or.inr (Or.inl (he ▸ List.mem_cons_self _ _))
      · rcases ih c hm with h1 | h2 | ⟨f, hf, hcf⟩
        · exact Or.inl h1
        · exact Or.inr (Or.inl (List.mem_cons_of_mem _ h2))
        · exact Or.inr (Or.inr ⟨f, hf, hcf⟩)

/-- Segment membership for `splitOnChar`. -/
lemma mem_splitOnChar (sep : Char) (s : Str) (c : Char) (h : c ∈ s) :
    c = sep ∨ ∃ f ∈ splitOnChar sep s, c ∈ f := by
  rcases mem_splitAux sep s c h with h1 | h2 | ⟨f, hf, hcf⟩
  · exact Or.inl h1
  · exact Or.inr ⟨(splitAux sep s).1, List.mem_cons_self _ _, h2⟩
  · exact Or.inr ⟨f, List.mem_cons_of_mem _ hf, hcf⟩

/-- Characters of a decimal octet are digits. -/
lemma isDecOctet_digits (f : Str) (h : isDecOctet f = true) :
    ∀ c ∈ f, isDig c = true := by
  simp only [isDecOctet, Bool.and_eq_true, decide_eq_true_eq] at h
  exact fun c hc => List.all_eq_true.mp h.1.2 c hc

/-- Characters of a string accepted by the IPv4 parser are digits or
dots. -/
lemma parseIPv4_chars (a : Str) (v : Nat) (h : parseIPv4 a = some v) :
    ∀ c ∈ a, c = '.' ∨ isDig c = true := by
  intro c hc
  unfold parseIPv4 at h
  split at h
  · rename_i f1 f2 f3 f4 heq
    split at h
    · rename_i hok
      rcases mem_splitOnChar '.' a c hc with h1 | ⟨f, hf, hcf⟩
      · exact Or.inl h1
      · refine Or.inr ?_
        rw [heq] at hf
        simp only [Bool.and_eq_true] at hok
        obtain ⟨⟨⟨ho1, ho2⟩, ho3⟩, ho4⟩ := hok
        simp only [List.mem_cons, List.not_mem_nil, or_false] at hf
        rcases hf with rfl | rfl | rfl | rfl
        · exact isDecOctet_digits f ho1 c hcf
        · exact isDecOctet_digits f ho2 c hcf
        · exact isDecOctet_digits f ho3 c hcf
        · exact isDecOctet_digits f ho4 c hcf
    · cases h
  · cases h

/-- Characters of a hex group are hex digits. -/
lemma isHexGroup_chars (f : Str) (h : isHexGroup f = true) :
    ∀ c ∈ f, isHexDig c = true := by
  simp only [isHexGroup, Bool.and_eq_true, decide_eq_true_eq] at h
  exact fun c hc => List.all_eq_true.mp h.1.2 c hc

/-- A digit is a hex digit. -/
lemma isDig_isHexDig (c : Char) (h : isDig c = true) : isHexDig c = true := by
  unfold isDig at h
  unfold isHexDig
  rw [h]
  rfl

/-- Characters of any field list accepted by `parseRun` are hex digits or
dots. -/
lemma parseRun_chars (v4 : Bool) :
    ∀ (fs : List Str) (gs : List Nat), parseRun v4 fs = some gs →
      ∀ f ∈ fs, ∀ c ∈ f, c = '.' ∨ isHexDig c = true := by
  intro fs
  induction fs with
  | nil => intro gs _ f hf; cases hf
  | cons f0 rest ih =>
    cases rest with
    | nil =>
      intro gs h f hf c hc
      rcases List.mem_cons.mp hf with rfl | hf2
      · unfold parseRun at h
        by_cases hg : isHexGroup f = true
        · exact Or.inr (isHexGroup_chars f hg c hc)
        · rw [if_neg hg] at h
          cases hv : v4 with
          | false => rw [hv] at h; simp at h
          | true =>
            rw [hv] at h
            simp only [if_pos rfl] at h
            cases hp : parseIPv4 f with
            | none => rw [hp] at h; cases h
            | some n =>
              rcases parseIPv4_chars f n hp c hc with hd | hd
              · exact Or.inl hd
              · exact Or.inr (isDig_isHexDig c hd)
      · cases hf2
    | cons g fs2 =>
      intro gs h f hf c hc
      unfold parseRun at h
      by_cases hg : isHexGroup f0 = true
      · rw [if_pos hg] at h
        cases hrest : parseRun v4 (g :: fs2) with
        | none => rw [hrest] at h; cases h
        | some gs2 =>
          rcases List.mem_cons.mp hf with rfl | hf2
          · exact Or.inr (isHexGroup_chars f hg c hc)
          · exact ih gs2 hrest f hf2 c hc
      · rw [if_neg hg] at h; cases h

/-- Characters of a string accepted by the IPv6 parser are hex digits,
colons, or dots. -/
lemma parseIPv6_chars (a : Str) (v : Nat) (h : parseIPv6 a = some v) :
    ∀ c ∈ a, c = ':' ∨ c = '.' ∨ isHexDig c = true := by
  intro c hc
  rcases mem_splitOnChar ':' a c hc with h1 | ⟨f, hf, hcf⟩
  · exact Or.inl h1
  · refine Or.inr ?_
    simp only [parseIPv6] at h
    have hsplit : splitOnChar ':' a =
        (splitOnChar ':' a).takeWhile (· ≠ []) ++ (splitOnChar ':' a).dropWhile (· ≠ []) :=
      (List.takeWhile_append_dropWhile ..).symm
    split at h
    · -- no "::": every field is parsed by one run
      cases hrun : parseRun true (splitOnChar ':' a) with
      | none => rw [hrun] at h; cases h
      | some gs => exact parseRun_chars true _ gs hrun f hf c hcf
    · split at h
      · -- the line starts with ':'
        split at h
        · -- fs = [[], [], []]: no field has characters
          rename_i hfs
          rw [hfs] at hf
          simp only [List.mem_cons, List.not_mem_nil, or_false] at hf
          rcases hf with rfl | rfl | rfl <;> cases hcf
        · split at h
          · -- a leading "::" followed by one run of fields
            rename_i hcond
            simp only [Bool.and_eq_true] at hcond
            cases hrun : parseRun true ((splitOnChar ':' a).drop 2) with
            | none => rw [hrun] at h; cases h
            | some gs =>
              have hfsplit : splitOnChar ':' a =
                  (splitOnChar ':' a).take 2 ++ (splitOnChar ':' a).drop 2 :=
                (List.take_append_drop ..).symm
              rw [hfsplit, of_decide_eq_true hcond.1.1] at hf
              rcases List.mem_append.mp hf with hfE | hfT
              · simp only [List.mem_cons, List.not_mem_nil, or_false] at hfE
                rcases hfE with rfl | rfl <;> cases hcf
              · exact parseRun_chars true _ gs hrun f hfT c hcf
          · cases h
      · split at h
        · -- trailing "::": the fields are L followed by two empties
          rename_i hR2
          cases hrun : parseRun false ((splitOnChar ':' a).takeWhile (· ≠ [])) with
          | none => rw [hrun] at h; cases h
          | some gs =>
            rw [hsplit, hR2] at hf
            rcases List.mem_append.mp hf with hfL | hfR
            · exact parseRun_chars false _ gs hrun f hfL c hcf
            · simp only [List.mem_cons, List.not_mem_nil, or_false] at hfR
              rcases hfR with rfl | rfl <;> cases hcf
        · split at h
          · -- interior "::": the fields are L, one empty, and the rest
            rename_i hcond
            simp only [Bool.and_eq_true] at hcond
            cases hrunL : parseRun false ((splitOnChar ':' a).takeWhile (· ≠ [])) with
            | none => rw [hrunL] at h; cases h
            | some gl =>
              cases hrunR :
                  parseRun true (((splitOnChar ':' a).dropWhile (· ≠ [])).drop 1) with
              | none => rw [hrunL, hrunR] at h; cases h
              | some gr =>
                have hRsplit : (splitOnChar ':' a).dropWhile (· ≠ []) =
                    ((splitOnChar ':' a).dropWhile (· ≠ [])).take 1 ++
                      ((splitOnChar ':' a).dropWhile (· ≠ [])).drop 1 :=
                  (List.take_append_drop ..).symm
                rw [hsplit, hRsplit, of_decide_eq_true hcond.1.1] at hf
                rcases List.mem_append.mp hf with hfL | hfR
                · exact parseRun_chars false _ gl hrunL f hfL c hcf
                · rcases List.mem_append.mp hfR with hfE | hfT
                  · simp only [List.mem_cons, List.not_mem_nil, or_false] at hfE
                    rcases hfE with rfl; cases hcf
                  · exact parseRun_chars true _ gr hrunR f hfT c hcf
          · cases h

/-- The prefix-length text accepted by `parseMask` is all digits. -/
lemma parseMask_digits (s : Str) (bits p : Nat) (h : parseMask s bits = some p) :
    ∀ c ∈ s, isDig c = true := by
  unfold parseMask at h
  split at h
  · rename_i hcond
    simp only [Bool.and_eq_true, decide_eq_true_eq] at hcond
    exact fun c hc => List.all_eq_true.mp hcond.1.2 c hc
  · cases h

/-- A string accepted by `ParseCIDR` contains no underscore, so the
on-disk encoding substitutes exactly the CIDR's slash. -/
lemma parseCIDRraw_no_underscore (s : Str) (r : Fam × Nat × Nat)
    (h : parseCIDRraw s = some r) : '_' ∉ s := by
  intro hmem
  unfold parseCIDRraw at h
  cases hsp : splitFirst '/' s with
  | none => rw [hsp] at h; cases h
  | some ab =>
    obtain ⟨a1, a2⟩ := ab
    rw [hsp] at h
    dsimp only at h
    obtain ⟨hseq, _⟩ := splitFirst_eq '/' s a1 a2 hsp
    have hmask : ∀ c ∈ a2, isDig c = true := by
      cases hv4 : parseIPv4 a1 with
      | some a4 =>
        rw [hv4] at h
        cases hpm : parseMask a2 32 with
        | none => rw [hpm] at h; cases h
        | some p => exact parseMask_digits a2 32 p hpm
      | none =>
        rw [hv4] at h
        cases hv6 : parseIPv6 a1 with
        | none => rw [hv6] at h; cases h
        | some a6 =>
          rw [hv6] at h
          cases hpm : parseMask a2 128 with
          | none => rw [hpm] at h; cases h
          | some p => exact parseMask_digits a2 128 p hpm
    have haddr : ∀ c ∈ a1, c = '.' ∨ c = ':' ∨ isHexDig c = true := by
      cases hv4 : parseIPv4 a1 with
      | some a4 =>
        intro c hc
        rcases parseIPv4_chars a1 a4 hv4 c hc with hd | hd
        · exact Or.inl hd
        · exact Or.inr (Or.inr (isDig_isHexDig c hd))
      | none =>
        rw [hv4] at h
        cases hv6 : parseIPv6 a1 with
        | none => rw [hv6] at h; cases h
        | some a6 =>
          intro c hc
          rcases parseIPv6_chars a1 a6 hv6 c hc with hd | hd | hd
          · exact Or.inr (Or.inl hd)
          · exact Or.inl hd
          · exact Or.inr (Or.inr hd)
    rw [hseq] at hmem
    rcases List.mem_append.mp hmem with h1 | h2
    · rcases haddr '_' h1 with he | he | he
      · exact absurd he (by decide)
      · exact absurd he (by decide)
      · exact absurd he (by decide)
    · rcases List.mem_cons.mp h2 with he | h3
      · exact absurd he (by decide)
      · exact absurd (hmask '_' h3) (by decide)

/-!
## Lemmas about the CIDR index loader (claims C2 and C9)
-/

/-- Inserting at the `sort.Search` position is a permutation of
prepending. -/
lemma insertCidr_perm (c : IPNet) : ∀ (l : List IPNet), (insertCidr c l).Perm (c :: l) := by
  intro l
  induction l with
  | nil => exact List.Perm.refl _
  | cons x xs ih =>
    unfold insertCidr
    by_cases hm : maskGe x c = true
    · rw [if_pos hm]
    · rw [if_neg hm]
      exact (ih.cons x).trans (List.Perm.swap c x xs)

/-- The loaded network list is a permutation of the successfully decoded
entries in directory order. -/
lemma readCidrsAux_perm : ∀ (fs : List Str) (acc : List IPNet),
    (readCidrsAux fs acc).Perm (acc ++ fs.filterMap decodeEntry) := by
  intro fs
  induction fs with
  | nil => intro acc; simp [readCidrsAux]
  | cons f fs ih =>
    intro acc
    cases hd : decodeEntry f with
    | none =>
      simp only [readCidrsAux, hd, List.filterMap_cons]
      exact ih acc
    | some c =>
      simp only [readCidrsAux, hd, List.filterMap_cons]
      refine (ih (insertCidr c acc)).trans ?_
      refine (List.Perm.append_right _ (insertCidr_perm c acc)).trans ?_
      exact List.perm_middle.symm

/-- `readCidrs` holds exactly the decodable entries (as a multiset). -/
lemma readCidrs_perm (fs : List Str) :
    (readCidrs fs).Perm (fs.filterMap decodeEntry) := by
  have := readCidrsAux_perm fs []
  simpa [readCidrs] using this

/-- Undecodable names can be dropped from the listing without changing
the result: the scan skips them and continues. -/
lemma readCidrsAux_filter : ∀ (fs : List Str) (acc : List IPNet),
    readCidrsAux fs acc = readCidrsAux (fs.filter (fun f => (decodeEntry f).isSome)) acc := by
  intro fs
  induction fs with
  | nil => intro _; rfl
  | cons f fs ih =>
    intro acc
    cases hd : decodeEntry f with
    | none =>
      rw [List.filter_cons]
      simp only [hd, Option.isSome_none, if_neg (by decide : ¬false = true)]
      simp only [readCidrsAux, hd]
      exact ih acc
    | some c =>
      rw [List.filter_cons]
      simp only [hd, Option.isSome_some, if_pos rfl]
      simp only [readCidrsAux, hd]
      exact ih (insertCidr c acc)

/-- Swapping the arguments of a byte compare swaps the ordering. -/
lemma cmpBytes_swap : ∀ (a b : List Nat), (cmpBytes a b).swap = cmpBytes b a := by
  intro a
  induction a with
  | nil => intro b; cases b <;> rfl
  | cons x xs ih =>
    intro b
    cases b with
    | nil => rfl
    | cons y ys =>
      show (cmpBytes (x :: xs) (y :: ys)).swap = cmpBytes (y :: ys) (x :: xs)
      unfold cmpBytes
      rcases Nat.lt_trichotomy x y with hlt | heq | hgt
      · rw [if_pos hlt, if_neg (Nat.lt_asymm hlt), if_pos hlt]; rfl
      · subst heq
        rw [if_neg (Nat.lt_irrefl x), if_neg (Nat.lt_irrefl x), if_neg (Nat.lt_irrefl x),
          if_neg (Nat.lt_irrefl x)]
        exact ih ys
      · rw [if_neg (Nat.lt_asymm hgt), if_pos hgt, if_pos hgt]; rfl

/-- Byte compares chain: two non-greater compares compose. -/
lemma cmpBytes_trans : ∀ (a b c : List Nat),
    cmpBytes a b ≠ .gt → cmpBytes b c ≠ .gt → cmpBytes a c ≠ .gt := by
  intro a
  induction a with
  | nil =>
    intro b c _ _
    cases c <;> simp [cmpBytes]
  | cons x xs ih =>
    intro b c h1 h2
    cases b with
    | nil => exact absurd rfl h1
    | cons y ys =>
      cases c with
      | nil => exact absurd rfl h2
      | cons z zs =>
        show cmpBytes (x :: xs) (z :: zs) ≠ .gt
        unfold cmpBytes at h1 h2 ⊢
        by_cases hxy : x < y
        · by_cases hyz : y < z
          · rw [if_pos (hxy.trans hyz)]; simp
          · rw [if_neg hyz] at h2
            by_cases hzy : z < y
            · rw [if_pos hzy] at h2; exact absurd rfl h2
            · have hyeq : y = z := Nat.le_antisymm (Nat.le_of_not_lt hzy) (Nat.le_of_not_lt hyz)
              rw [if_pos (hyeq ▸ hxy)]
              simp
        · rw [if_neg hxy] at h1
          by_cases hyx : y < x
          · rw [if_pos hyx] at h1; exact absurd rfl h1
          · have hxeq : x = y := Nat.le_antisymm (Nat.le_of_not_lt hyx) (Nat.le_of_not_lt hxy)
            subst hxeq
            rw [if_neg (Nat.lt_irrefl x)] at h1
            by_cases hxz : x < z
            · rw [if_pos hxz]; simp
            · rw [if_neg hxz] at h2 ⊢
              by_cases hzx : z < x
              · rw [if_pos hzx] at h2; exact absurd rfl h2
              · rw [if_neg hzx] at h2 ⊢
                exact ih ys zs h1 h2

/-- The ordering in which `readCidrs` keeps its list: the stored mask is
not byte-wise greater. -/
def maskLe (a b : IPNet) : Prop := cmpBytes (maskBytes a) (maskBytes b) ≠ .gt

/-- A positive `sort.Search` test gives the reverse inequality. -/
lemma maskLe_of_maskGe (x c : IPNet) (h : maskGe x c = true) : maskLe c x := by
  have hne : cmpBytes (maskBytes x) (maskBytes c) ≠ .lt := of_decide_eq_true h
  intro hgt
  have hswap := cmpBytes_swap (maskBytes c) (maskBytes x)
  rw [hgt] at hswap
  exact hne hswap.symm

/-- A negative `sort.Search` test means the probed mask is smaller. -/
lemma maskLe_of_not_maskGe (x c : IPNet) (h : maskGe x c = false) : maskLe x c := by
  have h2 : ¬(cmpBytes (maskBytes x) (maskBytes c) ≠ .lt) := of_decide_eq_false h
  have h3 := not_not.mp h2
  unfold maskLe
  rw [h3]
  simp

/-- Membership in the inserted list. -/
lemma mem_insertCidr (c y : IPNet) (l : List IPNet) :
    y ∈ insertCidr c l ↔ y = c ∨ y ∈ l := by
  rw [(insertCidr_perm c l).mem_iff]
  exact List.mem_cons

/-- Insertion keeps the list sorted by mask. -/
lemma insertCidr_sorted (c : IPNet) : ∀ (l : List IPNet),
    l.Pairwise maskLe → (insertCidr c l).Pairwise maskLe := by
  intro l
  induction l with
  | nil => intro _; exact List.pairwise_singleton ..
  | cons x xs ih =>
    intro hp
    rcases List.pairwise_cons.mp hp with ⟨hx, hxs⟩
    unfold insertCidr
    by_cases hm : maskGe x c = true
    · rw [if_pos hm]
      refine List.pairwise_cons.mpr ⟨?_, hp⟩
      intro y hy
      rcases List.mem_cons.mp hy with heq | hy2
      · rw [heq]; exact maskLe_of_maskGe x c hm
      · exact cmpBytes_trans _ _ _ (maskLe_of_maskGe x c hm) (hx y hy2)
    · rw [if_neg hm]
      refine List.pairwise_cons.mpr ⟨?_, ih hxs⟩
      intro y hy
      rcases (mem_insertCidr c y xs).mp hy with heq | hy2
      · rw [heq]; exact maskLe_of_not_maskGe x c (Bool.eq_false_iff.mpr hm)
      · exact hx y hy2

/-- The loader's invariant: the accumulated list stays mask-sorted after
every insertion. -/
lemma readCidrsAux_sorted : ∀ (fs : List Str) (acc : List IPNet),
    acc.Pairwise maskLe → (readCidrsAux fs acc).Pairwise maskLe := by
  intro fs
  induction fs with
  | nil => intro acc h; exact h
  | cons f fs ih =>
    intro acc h
    cases hd : decodeEntry f with
    | none => simp only [readCidrsAux, hd]; exact ih acc h
    | some c => simp only [readCidrsAux, hd]; exact ih _ (insertCidr_sorted c acc h)

/-- The prefix length accepted by `parseMask` is within the address
width. -/
lemma parseMask_le (s : Str) (bits p : Nat) (h : parseMask s bits = some p) : p ≤ bits := by
  unfold parseMask at h
  split at h
  · rename_i hcond
    simp only [Bool.and_eq_true, decide_eq_true_eq] at hcond
    rw [← Option.some.inj h]
    exact hcond.2
  · cases h

/-- Every network produced by `ParseCIDR` has its prefix length within
its family's bit width. -/
lemma parseCIDR_wf (s : Str) (n : IPNet) (h : parseCIDR s = some n) :
    n.plen ≤ famBits n.fam := by
  unfold parseCIDR at h
  cases hr : parseCIDRraw s with
  | none => rw [hr] at h; cases h
  | some r =>
    rw [hr] at h
    simp only [Option.map_some'] at h
    have hple : r.2.2 ≤ famBits r.1 := by
      unfold parseCIDRraw at hr
      cases hsp : splitFirst '/' s with
      | none => rw [hsp] at hr; cases hr
      | some ab =>
        obtain ⟨a1, a2⟩ := ab
        rw [hsp] at hr
        dsimp only at hr
        cases hv4 : parseIPv4 a1 with
        | some a4 =>
          rw [hv4] at hr
          cases hpm : parseMask a2 32 with
          | none => rw [hpm] at hr; cases hr
          | some p =>
            rw [hpm] at hr
            simp only [Option.map_some'] at hr
            rw [← Option.some.inj hr]
            exact parseMask_le a2 32 p hpm
        | none =>
          rw [hv4] at hr
          cases hv6 : parseIPv6 a1 with
          | none => rw [hv6] at hr; cases hr
          | some a6 =>
            rw [hv6] at hr
            cases hpm : parseMask a2 128 with
            | none => rw [hpm] at hr; cases hr
            | some p =>
              rw [hpm] at hr
              simp only [Option.map_some'] at hr
              rw [← Option.some.inj hr]
              exact parseMask_le a2 128 p hpm
    rw [← Option.some.inj h]
    exact hple

/-- Every loaded network is well-formed. -/
lemma readCidrs_wf (fs : List Str) : ∀ c ∈ readCidrs fs, c.plen ≤ famBits c.fam := by
  intro c hc
  have hmem := (readCidrs_perm fs).mem_iff.mp hc
  rcases List.mem_filterMap.mp hmem with ⟨f, _, hdf⟩
  exact parseCIDR_wf _ c hdf

/-- A mask with a strictly larger prefix length compares greater,
whatever the byte widths, as long as the larger one fits its width. -/
lemma cmp_mkMask_gt : ∀ (wa pa pb wb : Nat), pb < pa → pa ≤ 8 * wa →
    cmpBytes (mkMask pa wa) (mkMask pb wb) = .gt := by
  intro wa
  induction wa with
  | zero => intro pa pb wb hlt hle; omega
  | succ w ih =>
    intro pa pb wb hlt hle
    cases wb with
    | zero => rfl
    | succ w2 =>
      show cmpBytes ((if 8 ≤ pa then 255 else maskByte pa) :: mkMask (pa - 8) w)
          ((if 8 ≤ pb then 255 else maskByte pb) :: mkMask (pb - 8) w2) = .gt
      by_cases hpb : 8 ≤ pb
      · have hpa : 8 ≤ pa := le_trans hpb (Nat.le_of_lt hlt)
        rw [if_pos hpa, if_pos hpb]
        show cmpBytes (255 :: mkMask (pa - 8) w) (255 :: mkMask (pb - 8) w2) = .gt
        unfold cmpBytes
        rw [if_neg (Nat.lt_irrefl 255), if_neg (Nat.lt_irrefl 255)]
        exact ih (pa - 8) (pb - 8) w2 (by omega) (by omega)
      · rw [if_neg hpb]
        have hb_lt : maskByte pb < (if 8 ≤ pa then 255 else maskByte pa) := by
          have h2pb : 2 ≤ 2 ^ (8 - pb) := by
            calc (2 : Nat) = 2 ^ 1 := rfl
            _ ≤ 2 ^ (8 - pb) := Nat.pow_le_pow_right (by norm_num) (by omega)
          have hle2 : 2 ^ (8 - pb) ≤ 2 ^ 8 := Nat.pow_le_pow_right (by norm_num) (by omega)
          by_cases hpa : 8 ≤ pa
          · rw [if_pos hpa]
            unfold maskByte
            omega
          · rw [if_neg hpa]
            unfold maskByte
            have hlt2 : 2 ^ (8 - pa) < 2 ^ (8 - pb) :=
              Nat.pow_lt_pow_right (by norm_num) (by omega)
            have hpos : 0 < 2 ^ (8 - pa) := Nat.pos_pow_of_pos _ (by norm_num)
            omega
        show cmpBytes ((if 8 ≤ pa then 255 else maskByte pa) :: mkMask (pa - 8) w)
          (maskByte pb :: mkMask (pb - 8) w2) = .gt
        unfold cmpBytes
        rw [if_neg (Nat.lt_asymm hb_lt), if_pos hb_lt]

/-- Between well-formed networks, mask order implies prefix-length
order. -/
lemma maskLe_plen (a b : IPNet) (ha : a.plen ≤ famBits a.fam)
    (h : maskLe a b) : a.plen ≤ b.plen := by
  by_contra hc
  push_neg at hc
  exact h (by
    unfold maskBytes
    exact cmp_mkMask_gt (famBytes a.fam) a.plen b.plen (famBytes b.fam) hc ha)

/-!
## Claims
-/

/-- Claim C1 (code bug): on a query for the IPv4 address `172.23.136.1`
against a registry where an `inetnum` entry contains the address, the
engine emits the `inetnum` block but never consults the `route`
directory: `found = found || r.printNet(...)` short-circuits once a
match was found, so the response contains no `route` block, contradicting
the claimed concatenation of every matching type's records. -/
theorem claim_C1_short_circuit :
    handleRequest regBoth (str "172.23.136.1\n") =
      some (banner ++ headerLine (str "inetnum") (str "172.23.136.0_23") ++
        str "inetnum: 172.23.136.0 - 172.23.137.255\n" ++ ['\n'] ++ ['\n']) ∧
    containsSeq ((handleRequest regBoth (str "172.23.136.1\n")).getD []) (str "route") = false := by
  decide

/-- Claim C3, counterexample: in the spec's scenario (a `route` directory
holding `172.23.136.0_23`, query `172.23.136.1`) the response does not
contain the claimed header line naming the key `172.23.136.0/23` — the
code keys the header by the underscore-encoded on-disk name. -/
theorem claim_C3_counterexample :
    containsSeq ((handleRequest regRoute (str "172.23.136.1\n")).getD [])
      (headerLine (str "route") (str "172.23.136.0/23")) = false := by
  decide

/-- Claim C3 as amended: the scenario's response consists of the banner
and a `route` block whose header names the on-disk key `172.23.136.0_23`,
i.e. the header line reads
`% Information related to 'route/172.23.136.0_23':`. -/
theorem claim_C3_underscore_header :
    handleRequest regRoute (str "172.23.136.1\n") =
      some (banner ++ headerLine (str "route") (str "172.23.136.0_23") ++
        str "route: 172.23.136.0/23\n" ++ ['\n'] ++ ['\n']) := by
  decide

/-- Claim C5 (code bug): the wire request line `-q types\n` does not
produce the type list: the flag value keeps the trailing newline
(`ServerInfo = "types\n"`), so `printServerInfo` falls into its default
unknown-option branch.  Only when another token follows the directive
(here a trailing space) does the server list every catalog type name in
declaration order. -/
theorem claim_C5_untrimmed_directive :
    handleRequest [] (str "-q types\n") =
      some (banner ++ str "%!u(string=types\n)nknown option %!s(MISSING)\n") ∧
    handleRequest [] (str "-q types \n") =
      some (banner ++ (whoisTypes.map (fun t => t.name ++ ['\n'])).flatten) := by
  decide

/-- Claim C6, counterexample: the query `FOO-MNT` matches the `mntner`
pattern, so `found` is set even though the missing record file produces
no record; the response body after the banner is empty, with no `% 404`
marker, although no catalog rule produced any record. -/
theorem claim_C6_counterexample :
    handleRequest [] (str "FOO-MNT\n") = some (banner ++ ['\n']) ∧
    containsSeq ((handleRequest [] (str "FOO-MNT\n")).getD []) (str "% 404") = false := by
  decide

/-- Claim C2: for every directory listing and query address, the CIDR
lookup returns exactly the decodable entries whose network contains the
address; the result is order-independent (a permuted listing yields a
permutation of the same matches); and entries whose decoded name does not
parse are skipped without aborting the scan and never appear. -/
theorem claim_C2_matching_networks (files : List Str) (ip : Ip) :
    (∀ c, c ∈ matchingNetworks files ip ↔
        ((∃ f ∈ files, decodeEntry f = some c) ∧ containsIp c ip = true)) ∧
    (∀ files2, files.Perm files2 →
        (matchingNetworks files ip).Perm (matchingNetworks files2 ip)) ∧
    readCidrs files = readCidrs (files.filter (fun f => (decodeEntry f).isSome)) := by
  refine ⟨?_, ?_, readCidrsAux_filter files []⟩
  · intro c
    unfold matchingNetworks
    rw [List.mem_filter]
    constructor
    · rintro ⟨hmem, hcont⟩
      refine ⟨?_, hcont⟩
      rcases List.mem_filterMap.mp ((readCidrs_perm files).mem_iff.mp hmem) with ⟨f, hf, hdf⟩
      exact ⟨f, hf, hdf⟩
    · rintro ⟨⟨f, hf, hdf⟩, hcont⟩
      exact ⟨(readCidrs_perm files).mem_iff.mpr (List.mem_filterMap.mpr ⟨f, hf, hdf⟩), hcont⟩
  · intro files2 hperm
    unfold matchingNetworks
    exact ((readCidrs_perm files).trans
      ((hperm.filterMap decodeEntry).trans (readCidrs_perm files2).symm)).filter _

/-- A sample directory listing (with one malformed name) and its
reversal, for the C2 witness. -/
def demoFiles : List Str := [str "10.0.0.0_8", str "bogus", str "10.1.0.0_16"]

/-- The reversed sample listing. -/
def demoFilesRev : List Str := [str "10.1.0.0_16", str "bogus", str "10.0.0.0_8"]

/-- Witness for C2: the matches for `10.1.0.1` against the sample listing
are a permutation of the matches against its reversal. -/
theorem claim_C2_witness :
    (matchingNetworks demoFiles ⟨.v4, 167837697⟩).Perm
      (matchingNetworks demoFilesRev ⟨.v4, 167837697⟩) :=
  (claim_C2_matching_networks demoFiles ⟨.v4, 167837697⟩).2.1 demoFilesRev (by decide)

/-- Claim C9: the network list built by `readCidrs` is sorted by prefix
length ascending — each entry's prefix length is at most the next one's —
and the containment matches of `printNet` are reported in that sorted
order. -/
theorem claim_C9_sorted_by_prefix (files : List Str) (ip : Ip) :
    List.Pairwise (fun a b => a.plen ≤ b.plen) (readCidrs files) ∧
    List.Pairwise (fun a b => a.plen ≤ b.plen) (matchingNetworks files ip) := by
  have hsorted : (readCidrs files).Pairwise maskLe :=
    readCidrsAux_sorted files [] List.Pairwise.nil
  have hwf := readCidrs_wf files
  have hplen : (readCidrs files).Pairwise (fun a b => a.plen ≤ b.plen) := by
    refine List.Pairwise.imp_of_mem ?_ hsorted
    intro a b hma hmb hle
    exact maskLe_plen a b (hwf a hma) hle
  exact ⟨hplen, hplen.filter _⟩

/-- Claim C4: for every string accepted by `ParseCIDR`, encoding it to
the on-disk form (replacing `/` by `_`) and decoding the on-disk name
back (replacing `_` by `/`, then parsing as a CIDR) reproduces the exact
original network, for IPv4 and IPv6 alike — the parser accepts no
underscore, so decoding inverts encoding on every valid CIDR text. -/
theorem claim_C4_roundtrip (s : Str) (n : IPNet) (h : parseCIDR s = some n) :
    decodeName (encodeName s) = s ∧ parseCIDR (decodeName (encodeName s)) = some n := by
  have hraw : ∃ r, parseCIDRraw s = some r := by
    unfold parseCIDR at h
    cases hr : parseCIDRraw s with
    | none => rw [hr] at h; cases h
    | some r => exact ⟨r, rfl⟩
  obtain ⟨r, hr⟩ := hraw
  have heq := decode_encode_of_no_underscore s (parseCIDRraw_no_underscore s r hr)
  exact ⟨heq, by rw [heq]; exact h⟩

/-- Witness for C4 at an IPv4 and an IPv6 network. -/
theorem claim_C4_witness :
    decodeName (encodeName (str "172.23.136.0/23")) = str "172.23.136.0/23" ∧
    parseCIDR (decodeName (encodeName (str "fd58:eb75:347d::/48"))) =
      some ⟨.v6, 336756380709330989225612768197119836160, 48⟩ :=
  ⟨(claim_C4_roundtrip (str "172.23.136.0/23") ⟨.v4, 2887223296, 23⟩ (by decide)).1,
    (claim_C4_roundtrip (str "fd58:eb75:347d::/48")
      ⟨.v6, 336756380709330989225612768197119836160, 48⟩ (by decide)).2⟩

/-- Claim C10: `parseObject` always stores both the uppercase and the
lowercase form of the final path segment of its input, so the exact-match
dispatch of `handleObject` — which reads the string at the rule's case
key and asserts it is a string — never fails a type assertion, for any
client-supplied argument and any registry. -/
theorem claim_C10_object_map_total (arg : Str) (reg : Registry) :
    parseObject arg .UPPER = some (.strv (toUpperStr (pathBase arg))) ∧
    parseObject arg .LOWER = some (.strv (toLowerStr (pathBase arg))) ∧
    (handleObject reg (parseObject arg)).isSome = true :=
  ⟨rfl, rfl, handleObjectAux_isSome reg _ (parseObject_wellObj arg) whoisTypes [] false⟩

/-- Claim C7: for every record fetch, a missing file is fully silent
(no connection output, no log), any other open failure is logged but
contributes nothing to the connection, and the connection only ever
receives either nothing or the well-formed header-plus-contents block —
never a filesystem error string. -/
theorem claim_C7_fetch_errors (reg : Registry) (ty obj : Str) :
    (openFile reg ty obj = .notExist → printObject reg ty obj = ([], [])) ∧
    (openFile reg ty obj = .otherErr →
      (printObject reg ty obj).1 = [] ∧ (printObject reg ty obj).2 ≠ []) ∧
    ((printObject reg ty obj).1 = [] ∨
      ∃ c, openFile reg ty obj = .contents c ∧
        (printObject reg ty obj).1 = headerLine ty obj ++ c ++ ['\n']) := by
  unfold printObject
  cases hof : openFile reg ty obj with
  | contents c =>
    exact ⟨fun h => FileResult.noConfusion h, fun h => FileResult.noConfusion h,
      Or.inr ⟨c, rfl, rfl⟩⟩
  | notExist =>
    exact ⟨fun _ => rfl, fun h => FileResult.noConfusion h, Or.inl rfl⟩
  | otherErr =>
    exact ⟨fun h => FileResult.noConfusion h, fun _ => ⟨rfl, List.cons_ne_nil _ _⟩,
      Or.inl rfl⟩

/-- Witness for C7: a fetch from an empty registry is silent, and a fetch
of an unreadable record leaves the connection clean while logging. -/
theorem claim_C7_witness :
    printObject [] (str "mntner") (str "X-MNT") = ([], []) ∧
    (printObject regUnreadable (str "mntner") (str "X-MNT")).1 = [] ∧
    (printObject regUnreadable (str "mntner") (str "X-MNT")).2 ≠ [] :=
  ⟨(claim_C7_fetch_errors [] (str "mntner") (str "X-MNT")).1 (by decide),
    ((claim_C7_fetch_errors regUnreadable (str "mntner") (str "X-MNT")).2.1 (by decide)).1,
    ((claim_C7_fetch_errors regUnreadable (str "mntner") (str "X-MNT")).2.1 (by decide)).2⟩

/-- Claim C6 as amended: for every well-formed query in which no catalog
rule **matches** — no exact pattern matches either case form and no
network lookup finds a containing entry, which the code tracks as
`found = false` — the body after the banner is exactly the `% 404` line
and the trailing blank line, emitted once regardless of how many
identifiers the request carried.  (As stated the claim fails: a rule can
match while its record file is missing, producing no record but
suppressing the marker; see the counterexample.) -/
theorem claim_C6_not_found_marker (reg : Registry) (wire req : Str) (fl : Flags)
    (h1 : readLine wire = some req) (h2 : parseFlags req = .ok fl)
    (h3 : fl.serverInfo = [])
    (h4 : ∀ a ∈ fl.args,
      (handleObject reg (parseObject (trimSpace a))).map Prod.snd = some false) :
    handleRequest reg wire = some (banner ++ str "% 404\n" ++ ['\n']) := by
  have hobjs : handleObjects reg (fl.args.map (fun a => parseObject (trimSpace a))) =
      some ([], false) := by
    apply handleObjects_404
    intro o ho
    rcases List.mem_map.mp ho with ⟨a, ha, rfl⟩
    exact h4 a ha
  simp [handleRequest, h1, h2, h3, hobjs]

/-- Witness for C6: a two-identifier query where nothing matches yields
exactly one `% 404` marker. -/
theorem claim_C6_witness :
    handleRequest [] (str "NOMATCH NIX\n") = some (banner ++ str "% 404\n" ++ ['\n']) :=
  claim_C6_not_found_marker [] (str "NOMATCH NIX\n") (str "NOMATCH NIX\n")
    ⟨[], [str "NOMATCH", str "NIX\n"]⟩ rfl rfl rfl (by decide)

/-- Claim C8, counterexample: a valid interleaving in which a connection
is accepted strictly after the drain signal.  The single accept loop
passes its flag check, `Shutdown` then stores the stop flag, and the
loop's already-running `AcceptTCP` still accepts and dispatches a
connection (`dispatched = 1`). -/
theorem claim_C8_counterexample :
    runEvs (initState 1) [.check, .setStop, .acceptConn] =
      some ⟨true, 1, 0, 0, 1, 1, 0, false⟩ := by
  decide

/-- Claim C8 as amended: in every reachable interleaving, (i) handler
accounting balances — `dispatched = pending + finished`, so in-flight
handlers only ever leave by completing, never by cancellation; (ii) when
`Shutdown` has returned, no handler is pending and every dispatched
handler has finished, and (iii) after the drain signal the number of
further accepted connections is bounded by the number of accept loops
already past their stop-flag check (at most one per listener) — not zero,
as the claim states: an iteration already inside `AcceptTCP` can still
accept one connection, which is why the code prints that shutdown "takes
up to 1s". -/
theorem claim_C8_drain (k : Nat) (evs : List Ev) (s2 : SState)
    (h : runEvs (initState k) evs = some s2) :
    (s2.dispatched = s2.pending + s2.finished) ∧
    (s2.retDone = true → s2.pending = 0 ∧ s2.dispatched = s2.finished) ∧
    (∀ pre suf m, evs = pre ++ suf → runEvs (initState k) pre = some m →
      m.stop = true → countAccepts suf ≤ m.wgPost) := by
  have hinv : LInv s2 :=
    runEvs_inv evs (initState k) s2 h ⟨rfl, fun hr => by simp [initState] at hr⟩
  refine ⟨hinv.1, fun hr => ?_, fun pre suf m hsplit hpre hstop => ?_⟩
  · obtain ⟨hp0, _, _⟩ := hinv.2 hr
    have hacc := hinv.1
    exact ⟨hp0, by omega⟩
  · rw [hsplit, runEvs_append pre suf] at h
    rw [hpre] at h
    exact accepts_bound suf m s2 hstop h

/-- Witness for C8 on a concrete drained trace: one listener, one
connection accepted after the signal by the already-running iteration,
its handler finished, the loop exited, and shutdown returned with the
books balanced. -/
theorem claim_C8_witness :
    (1 : Nat) = 0 + 1 ∧ ((0 : Nat) = 0 ∧ (1 : Nat) = 1) ∧
      countAccepts [Ev.acceptConn, Ev.finish, Ev.check, Ev.shutdownRet] ≤ 1 := by
  have h := claim_C8_drain 1 [.check, .setStop, .acceptConn, .finish, .check, .shutdownRet]
    ⟨true, 0, 0, 1, 0, 1, 1, true⟩ (by decide)
  exact ⟨h.1, h.2.1 rfl,
    h.2.2 [.check, .setStop] [.acceptConn, .finish, .check, .shutdownRet]
      ⟨true, 0, 1, 0, 0, 0, 0, false⟩ rfl (by decide) rfl⟩

end Whois
